import Mathlib

/-!
Verification of the tp25-api partitioned sensor-record store, its
multi-partition query merger, rollup/aggregation engine and derived-metric
calculator, as a shallow embedding in Lean.

Source files embedded:
  * internal/domain/zone.go           (RoundValue, Report)
  * internal/domain (records)         (Record, GetFloat, QueryRecord, DailyReport)
  * lib/interpolation/interpolation.go (Point, Curve, NewCurve, Interpolate,
                                        HydraulicCalculator and its formulas)
  * internal/service/sensor_service.go (applyInterpolation)
  * internal/repository/mongodb/sensor_repository.go
      (AddRecord, ListRecordsByGroup, ReportRecords)
  * internal/repository/mongodb/zone_repository.go (ReportByMetric)

Go float64 arithmetic is modelled exactly: by ℚ where no irrational
function occurs (store, rollups, rounding) and by ℝ where sqrt / pow
appear (hydraulic calculator).  Go's `int(x)` conversion truncates toward
zero; it is modelled by `truncTowardZero`.  MongoDB pipeline execution
(sort/skip/limit/facet/unionWith/group) is not part of the repository
source; it is modelled by the corresponding list operations, following the
spec's description of the store collaborator.
-/

namespace TP25

/-! ## Rounding (internal/domain/zone.go, RoundValue) -/

/-- Go `int(x)` conversion: truncation toward zero, on exact rationals. -/
def truncTowardZero (q : ℚ) : ℤ :=
  if 0 ≤ q then ⌊q⌋ else ⌈q⌉

/-- `RoundValue` from internal/domain/zone.go:
`float64(int(f*100+0.5)) / 100`, on exact rationals. -/
def RoundValue (f : ℚ) : ℚ :=
  (truncTowardZero (f * 100 + 0.5) : ℚ) / 100

noncomputable section RealRounding

/-- Go `int(x)` truncation toward zero, real-number version. -/
def truncTowardZeroR (x : ℝ) : ℤ :=
  if 0 ≤ x then ⌊x⌋ else ⌈x⌉

/-- `RoundValue` from internal/domain/zone.go applied to the real-valued
calculator outputs: `float64(int(f*100+0.5)) / 100`. -/
def RoundValueR (x : ℝ) : ℝ :=
  (truncTowardZeroR (x * 100 + 0.5) : ℝ) / 100

end RealRounding

/-! ## UTC calendar derivation

MongoDB's `$dateToString "%Y-%m-%d"`, `$year` and `$month` convert the
epoch-seconds `_id`/`t` field (multiplied by 1000 to milliseconds) to a UTC
calendar date.  Two timestamps fall on the same calendar day iff they have
the same floor-division by 86400; the civil (year, month, day) of a day
number is computed by the standard Gregorian algorithm. -/

/-- Day number (days since 1970-01-01 UTC) of an epoch-seconds timestamp. -/
def dayOfSecs (t : ℤ) : ℤ := Int.fdiv t 86400

/-- Gregorian civil date (year, month, day) of a day number
(days since 1970-01-01), standard era-based algorithm. -/
def civilFromDays (z : ℤ) : ℤ × ℤ × ℤ :=
  let z' := z + 719468
  let era := Int.fdiv z' 146097
  let doe := z' - era * 146097
  let yoe := Int.fdiv (doe - Int.fdiv doe 1460 + Int.fdiv doe 36524 - Int.fdiv doe 146096) 365
  let y := yoe + era * 400
  let doy := doe - (365 * yoe + Int.fdiv yoe 4 - Int.fdiv yoe 100)
  let mp := Int.fdiv (5 * doy + 2) 153
  let d := doy - Int.fdiv (153 * mp + 2) 5 + 1
  let m := mp + (if mp < 10 then 3 else -9)
  (y + (if m ≤ 2 then 1 else 0), m, d)

/-- (year, month) in UTC of an epoch-seconds timestamp, as computed by
MongoDB's `$year`/`$month` on `$toDate ($multiply t 1000)`. -/
def ymOfSecs (t : ℤ) : ℤ × ℤ :=
  let c := civilFromDays (dayOfSecs t)
  (c.1, c.2.1)

/-! ## Records (internal/domain, type Record map[string]interface{})

A BSON value is either a numeric value (float64 / int64 / int32, all exact
in our number type) or some non-numeric value; `Record.GetFloat` yields the
number for numeric values and 0 otherwise. -/

/-- A dynamic BSON field value: numeric or not. -/
inductive GoVal (β : Type) where
  | num (x : β)
  | other
deriving DecidableEq

/-- Field lookup in a Go map modelled as an association list
(first match; keys are unique in a map). -/
def fget {β : Type} : List (String × β) → String → Option β
  | [], _ => none
  | (k', v) :: rest, k => if k' = k then some v else fget rest k

/-- Field assignment `record[k] = v` in a Go map modelled as an
association list: replace the existing entry, or append a new one. -/
def fset {β : Type} : List (String × β) → String → β → List (String × β)
  | [], k, v => [(k, v)]
  | (k', v') :: rest, k, v =>
      if k' = k then (k, v) :: rest else (k', v') :: fset rest k v

/-- `Record.GetFloat`: the numeric value of field `k`, else 0. -/
def getFloat {β : Type} [Zero β] (fields : List (String × GoVal β)) (k : String) : β :=
  match fget fields k with
  | some (.num x) => x
  | _ => 0

/-- A stored sensor record: `_id` (epoch seconds, the partition-unique
key) plus the remaining dynamic fields (`c`, metric codes, ...). -/
structure Rec where
  id : ℤ
  fields : List (String × GoVal ℚ)
deriving DecidableEq

/-- First-appearance deduplication of group keys: the order in which a
grouping pass first meets each key. -/
def uniqKeys {κ : Type} [DecidableEq κ] (seen : List κ) : List κ → List κ
  | [] => []
  | k :: ks => if k ∈ seen then uniqKeys seen ks else k :: uniqKeys (k :: seen) ks

/-! ## Piecewise-linear interpolation (lib/interpolation/interpolation.go)

`Point`, `Curve`, `NewCurve`, `Curve.Interpolate`.  The Go code works on
float64; the definitions are generic over a linear ordered field so that
they are executable on ℚ and instantiate to ℝ inside the calculator. -/

/-- A data point for interpolation (`Point`). -/
structure Point (α : Type) where
  x : α
  y : α
deriving DecidableEq

/-- An interpolation curve (`Curve`). -/
structure Curve (α : Type) where
  points : List (Point α)
deriving DecidableEq

variable {α : Type} [LinearOrderedField α]

/-- `NewCurve`: sorts the points by X value before storing them
(`sort.Slice` with an `X`-comparison). -/
def NewCurve (ps : List (Point α)) : Curve α :=
  ⟨ps.mergeSort (fun p q => decide (p.x ≤ q.x))⟩

/-- The linear interpolation formula `y1 + (x-x1)*(y2-y1)/(x2-x1)` of the
segment from `p` to `q`, evaluated at `x`. -/
def lerp (p q : Point α) (x : α) : α :=
  p.y + (x - p.x) * (q.y - p.y) / (q.x - p.x)

/-- The bracketing-segment scan of `Interpolate`: walk consecutive pairs in
order and return the formula at the first pair `(p, q)` with
`p.x ≤ x ∧ x ≤ q.x`; `0` if the loop falls through. -/
def interpScan : List (Point α) → α → α
  | p :: q :: rest, x =>
      if p.x ≤ x ∧ x ≤ q.x then lerp p q x else interpScan (q :: rest) x
  | _, _ => 0

/-- `Curve.Interpolate`: 0 for an empty curve, the single Y for a
one-point curve, clamping to the first/last Y at or outside the ends, and
otherwise the bracketing-segment scan. -/
def Curve.interpolate (c : Curve α) (x : α) : α :=
  match c.points with
  | [] => 0
  | [p] => p.y
  | p :: q :: rest =>
      if x ≤ p.x then p.y
      else if (rest.getLastD q).x ≤ x then (rest.getLastD q).y
      else interpScan (p :: q :: rest) x

/-! ## Hydraulic calculator (lib/interpolation/interpolation.go) -/

noncomputable section Hydraulic

/-- `HydraulicCalculator`: volume curve, optional flow curve, and the
overflow parameters m, B, g. -/
structure HydraulicCalculator where
  volumeCurve : Curve ℝ
  flowCurve : Option (Curve ℝ)
  overflowM : ℝ
  overflowB : ℝ
  overflowG : ℝ

/-- `NewHydraulicCalculator`: the default volume curve and overflow
parameters m = 0.49, B = 10, g = 9.81; no flow curve. -/
def NewHydraulicCalculator : HydraulicCalculator where
  volumeCurve := NewCurve [⟨0, 0⟩, ⟨1, 0.5⟩, ⟨2, 1.2⟩, ⟨3, 2.1⟩, ⟨4, 3.2⟩, ⟨5, 4.5⟩]
  flowCurve := none
  overflowM := 0.49
  overflowB := 10
  overflowG := 9.81

/-- `CalculateWaterIndex`: volume from water level via the volume curve. -/
def CalculateWaterIndex (h : HydraulicCalculator) (wau : ℝ) : ℝ :=
  h.volumeCurve.interpolate wau

/-- `CalculateWaterFlow`: flow from water level and discharge; the flow
curve when configured, else `dr * sqrt(2 * g * wau)` guarded by `wau ≤ 0`. -/
def CalculateWaterFlow (h : HydraulicCalculator) (wau dr : ℝ) : ℝ :=
  match h.flowCurve with
  | some c => c.interpolate wau
  | none => if wau ≤ 0 then 0 else dr * Real.sqrt (2 * h.overflowG * wau)

/-- `CalculateWaterOverFlow`: `m * B * sqrt(2*g) * wau^1.5` when
`wau > 0`, else 0 (`math.Pow` is real exponentiation). -/
def CalculateWaterOverFlow (h : HydraulicCalculator) (wau : ℝ) : ℝ :=
  if wau ≤ 0 then 0
  else h.overflowM * h.overflowB * Real.sqrt (2 * h.overflowG) * wau ^ (1.5 : ℝ)

/-! ## Derived-metric calculator at the service layer
(internal/service/sensor_service.go, applyInterpolation) -/

/-- A service-layer record when the hydraulic calculator runs: the dynamic
fields of a `domain.Record` with (float64) values modelled in ℝ. -/
def RecordR : Type := List (String × GoVal ℝ)

/-- `applyInterpolation`: pass the record through unchanged when
`GetFloat "WAU"` is 0; otherwise write the rounded derived metrics
`V`, `Q` (only when `GetFloat "DR" > 0`) and `Q_of`. -/
def applyInterpolation (s : HydraulicCalculator) (r : RecordR) : RecordR :=
  let wau := getFloat r "WAU"
  if wau = 0 then r
  else
    let r1 := fset r "V" (.num (RoundValueR (CalculateWaterIndex s wau)))
    let dr := getFloat r1 "DR"
    let r2 :=
      if 0 < dr then fset r1 "Q" (.num (RoundValueR (CalculateWaterFlow s wau dr)))
      else r1
    fset r2 "Q_of" (.num (RoundValueR (CalculateWaterOverFlow s wau)))

end Hydraulic

/-! ## Partitioned record store: insert
(internal/repository/mongodb/sensor_repository.go, AddRecord) -/

/-- Store errors relevant to record insertion. -/
inductive RepoError where
  | duplicateKey
deriving DecidableEq

/-- Modelled from the spec: the persistence collaborator's `InsertOne`
into the per-partition collection, which `AddRecord` calls but whose
unique-`_id` enforcement lives in MongoDB, outside src/.  Per the spec's
store contract, the insert "fails with `DuplicateKey` if a record already
exists at the record's key within that partition; otherwise persists it
unchanged". -/
def insertOne (coll : List Rec) (r : Rec) : Except RepoError (List Rec) :=
  if coll.any (fun x => x.id = r.id) then .error .duplicateKey
  else .ok (coll ++ [r])

/-- The ingest-timestamp assignment in `AddRecord`: set field `c` to the
server time (epoch milliseconds) iff it is not already present. -/
def assignCTime (now : ℤ) (r : Rec) : Rec :=
  if (fget r.fields "c").isSome then r
  else { r with fields := fset r.fields "c" (.num (now : ℚ)) }

/-- `AddRecord boxID record`: assign the `c` field if absent, then insert
into the partition's collection. -/
def AddRecord (coll : List Rec) (now : ℤ) (r : Rec) : Except RepoError (List Rec) :=
  insertOne coll (assignCTime now r)

/-! ## Multi-partition query merger
(internal/repository/mongodb/sensor_repository.go, ListRecordsByGroup)

The Go function builds one aggregation pipeline: per-partition `$match` on
the inclusive `_id` range and `$addFields box_id`, `$unionWith`
concatenation over the partitions in order, then a single `$facet` whose
`records` branch sorts by `_id` descending and applies `$skip`/`$limit`
once, and whose `total` branch counts every matched document. -/

/-- The inclusive `[t0, t1]` filter on the record key
(`_id: {$gte: t0, $lte: t1}`). -/
def matchesRange (t0 t1 : ℤ) (r : Rec) : Bool :=
  decide (t0 ≤ r.id) && decide (r.id ≤ t1)

/-- All matches of one partition, tagged with its partition key
(`$match` + `$addFields box_id`). -/
def taggedMatches (t0 t1 : ℤ) (p : String × List Rec) : List (String × Rec) :=
  (p.2.filter (matchesRange t0 t1)).map (fun r => (p.1, r))

/-- `ListRecordsByGroup boxIDs query`: empty result for an empty partition
list; otherwise concatenate every partition's tagged matches, sort the
concatenation by record key descending, apply skip/limit once over the
merged list, and return the page together with the merged total. -/
def ListRecordsByGroup (parts : List (String × List Rec)) (t0 t1 : ℤ)
    (skip limit : ℕ) : List (String × Rec) × ℕ :=
  if parts.isEmpty then ([], 0)
  else
    let merged := parts.flatMap (taggedMatches t0 t1)
    let sorted := merged.mergeSort (fun a b => decide (b.2.id ≤ a.2.id))
    ((sorted.drop skip).take limit, merged.length)

/-! ## Daily rollup
(internal/repository/mongodb/sensor_repository.go, ReportRecords)

Pipeline: `$match` on the inclusive `_id` range, `$addFields date` (the
UTC calendar date of `_id`), `$group` by date pushing the records,
`$sort` by date ascending; then per bucket Go accumulates count/sum/min/max
over every field other than `_id`, `c` and `date` whose value is numeric,
and publishes rounded avg/min/max. -/

/-- The numeric occurrences of field `f` across a date bucket, in record
order, skipping the reserved `_id`/`c`/`date` keys. -/
def metricVals (bucket : List Rec) (f : String) : List ℚ :=
  if f = "_id" ∨ f = "c" ∨ f = "date" then []
  else bucket.filterMap (fun r =>
    match fget r.fields f with
    | some (GoVal.num q) => some q
    | _ => none)

/-- One daily report row: the date bucket's day number, its record count
and the per-field rounded statistics maps. -/
structure DailyReport where
  date : ℤ
  count : ℕ
  avg : String → Option ℚ
  min : String → Option ℚ
  max : String → Option ℚ

/-- The daily report row of one date bucket: `Count` is the bucket size;
for every field with at least one numeric occurrence, `Avg` is the rounded
mean of those occurrences, `Min`/`Max` their rounded minimum/maximum. -/
def mkDailyReport (day : ℤ) (bucket : List Rec) : DailyReport where
  date := day
  count := bucket.length
  avg := fun f =>
    match metricVals bucket f with
    | [] => none
    | v :: vs => some (RoundValue ((v :: vs).sum / ((v :: vs).length : ℚ)))
  min := fun f =>
    match metricVals bucket f with
    | [] => none
    | v :: vs => some (RoundValue (vs.foldl min v))
  max := fun f =>
    match metricVals bucket f with
    | [] => none
    | v :: vs => some (RoundValue (vs.foldl max v))

/-- `ReportRecords boxID query`: group the records matching the inclusive
range by UTC calendar date of `_id`, ascending by date, and emit one
statistics row per date bucket. -/
def ReportRecords (recs : List Rec) (t0 t1 : ℤ) : List DailyReport :=
  let m := recs.filter (matchesRange t0 t1)
  let days := uniqKeys [] (m.map (fun r => dayOfSecs r.id))
  (days.mergeSort (fun a b => decide (a ≤ b))).map
    (fun day => mkDailyReport day (m.filter (fun r => dayOfSecs r.id = day)))

/-! ## Monthly rollup by metric
(internal/repository/mongodb/zone_repository.go, ReportByMetric)

For each source (partition) independently: `$match` on existence of the
epoch-seconds field `t`, `$project` UTC year/month of `t`, `$group` by
(year, month) pushing the records; then for each requested metric, Go sums
the metric's numeric occurrences in the bucket and appends a row when at
least one occurrence is valid.  Rows of all sources are appended in
order. -/

/-- A record of a monthly-report source collection: the epoch-seconds `t`
field (absent records are dropped by `$match`) plus the dynamic fields. -/
structure TRec where
  t : Option ℤ
  fields : List (String × GoVal ℚ)

/-- One monthly report row (`domain.Report`): (year, month, metric),
the bucket's record count and the rounded metric total.  The row carries
no source identifier. -/
structure Report where
  year : ℤ
  month : ℤ
  metric : String
  count : ℕ
  total : ℚ
deriving DecidableEq

/-- The numeric occurrences of `metric` across a (year, month) bucket. -/
def metricValsT (bucket : List TRec) (metric : String) : List ℚ :=
  bucket.filterMap (fun r =>
    match fget r.fields metric with
    | some (GoVal.num q) => some q
    | _ => none)

/-- The (year, month) bucket of a source: its `t`-bearing records whose
UTC (year, month) is `k` (what `$group` pushes for group key `k`). -/
def monthBucket (recs : List TRec) (k : ℤ × ℤ) : List TRec :=
  (recs.filter (fun r => r.t.isSome)).filter (fun r => ymOfSecs (r.t.getD 0) = k)

/-- The monthly rows of one source: group its `t`-bearing records by UTC
(year, month) and, per requested metric, emit a row iff the bucket has at
least one numeric occurrence of that metric; `Count` is the bucket size
and `Total` the rounded sum of the numeric occurrences. -/
def reportOneSource (recs : List TRec) (metrics : List String) : List Report :=
  let m := recs.filter (fun r => r.t.isSome)
  let keys := uniqKeys [] (m.map (fun r => ymOfSecs (r.t.getD 0)))
  keys.flatMap (fun k =>
    metrics.flatMap (fun mc =>
      let vals := metricValsT (monthBucket recs k) mc
      if vals.length ≠ 0 then
        [{ year := k.1, month := k.2, metric := mc,
           count := (monthBucket recs k).length, total := RoundValue vals.sum }]
      else []))

/-- `ReportByMetric sources metrics`: process each source independently
and append its rows in source order. -/
def ReportByMetric (sources : List (String × List TRec)) (metrics : List String) :
    List Report :=
  sources.flatMap (fun s => reportOneSource s.2 metrics)

/-! ## Association-list lemmas -/

theorem mem_uniqKeys {κ : Type} [DecidableEq κ] (seen : List κ) (l : List κ) (k : κ) :
    k ∈ uniqKeys seen l ↔ k ∈ l ∧ k ∉ seen := by
  induction l generalizing seen with
  | nil => simp [uniqKeys]
  | cons a l ih =>
    by_cases ha : a ∈ seen
    · simp only [uniqKeys, if_pos ha, ih, List.mem_cons]
      constructor
      · rintro ⟨h1, h2⟩; exact ⟨Or.inr h1, h2⟩
      · rintro ⟨h1 | h1, h2⟩
        · exact absurd (h1 ▸ ha) h2
        · exact ⟨h1, h2⟩
    · simp only [uniqKeys, if_neg ha, List.mem_cons, ih, List.mem_cons] at *
      constructor
      · rintro (h | ⟨h1, h2⟩)
        · exact ⟨Or.inl h, h ▸ ha⟩
        · exact ⟨Or.inr h1, fun hk => h2 (Or.inr hk)⟩
      · rintro ⟨h1 | h1, h2⟩
        · exact Or.inl h1
        · by_cases hak : k = a
          · exact Or.inl hak
          · exact Or.inr ⟨h1, fun hk => hak (by rcases hk with h | h; exact h; exact absurd h h2)⟩

theorem fget_fset_self {β : Type} (l : List (String × β)) (k : String) (v : β) :
    fget (fset l k v) k = some v := by
  induction l with
  | nil => simp [fget, fset]
  | cons kv rest ih =>
    by_cases h : kv.1 = k
    · simp [fset, h, fget]
    · simp [fset, h, fget, ih]

theorem fget_fset_ne {β : Type} (l : List (String × β)) (k k' : String) (v : β)
    (h : k' ≠ k) : fget (fset l k v) k' = fget l k' := by
  induction l with
  | nil => simp [fget, fset]; exact fun hh => h hh.symm
  | cons kv rest ih =>
    by_cases hk : kv.1 = k
    · simp only [fset, if_pos hk, fget]
      rw [if_neg (fun hh => h hh.symm), if_neg (by rw [hk]; exact fun hh => h hh.symm)]
    · simp only [fset, if_neg hk, fget]
      by_cases hk' : kv.1 = k'
      · rw [if_pos hk', if_pos hk']
      · rw [if_neg hk', if_neg hk', ih]

/-! ## C9 — rounding semantics of RoundValue -/

/-- C9 (amended): `RoundValue` truncates `v*100 + 0.5` toward zero.  This
agrees with floor-based round-half-up exactly on the inputs with
`v*100 + 0.5 ≥ 0`, i.e. `v ≥ -1/200`; for `v < -1/200` the published value
is the ceiling of `v*100 + 0.5`, divided by 100, not the floor. -/
theorem C9_roundValue_half_up (v : ℚ) :
    (-(1/200) ≤ v → RoundValue v = (⌊v * 100 + 1/2⌋ : ℚ) / 100) ∧
    (v < -(1/200) → RoundValue v = (⌈v * 100 + 1/2⌉ : ℚ) / 100) := by
  constructor
  · intro h
    have h0 : (0 : ℚ) ≤ v * 100 + 0.5 := by norm_num; linarith
    rw [RoundValue, truncTowardZero, if_pos h0]
    norm_num
  · intro h
    have h0 : ¬ (0 : ℚ) ≤ v * 100 + 0.5 := by norm_num; linarith
    rw [RoundValue, truncTowardZero, if_neg h0]
    norm_num

/-- C9 witness: at `v = 7/2` the round-half-up description applies and
gives `3.5`. -/
theorem C9_roundValue_half_up_witness :
    (-(1/200) ≤ (7/2 : ℚ)) ∧ RoundValue (7/2) = (⌊(7/2 : ℚ) * 100 + 1/2⌋ : ℚ) / 100 :=
  ⟨by norm_num, (C9_roundValue_half_up (7/2)).1 (by norm_num)⟩

/-- C9 counterexample: at `v = -0.006` the code yields `0` (truncation
toward zero of `-0.1`), while floor-based round-half-up on `v*100` would
give `-0.01`; so the claim fails for negative inputs. -/
theorem C9_roundValue_counterexample :
    RoundValue (-(3/500)) = 0 ∧
    (⌊(-(3/500) : ℚ) * 100 + 1/2⌋ : ℚ) / 100 = -(1/100) ∧
    (0 : ℚ) ≠ -(1/100) := by
  refine ⟨?_, by norm_num, by norm_num⟩
  rw [RoundValue, truncTowardZero, if_neg (by norm_num)]
  norm_num

/-! ## C4 — insert assigns ingest time iff absent, rejects duplicates -/

/-- C4: `AddRecord` assigns the server ingest-time field `c` iff it is
absent (leaving the key and every other field unchanged); when the
partition already holds a record at the new record's key, the insert
fails with `DuplicateKey` (so the stored collection is not replaced and
the previously stored record is untouched); otherwise the collection is
extended by exactly the record with the `c`-assignment applied. -/
theorem C4_addRecord_spec (coll : List Rec) (now : ℤ) (r : Rec) :
    (assignCTime now r).id = r.id ∧
    (∀ v, fget r.fields "c" = some v → assignCTime now r = r) ∧
    (fget r.fields "c" = none →
      fget (assignCTime now r).fields "c" = some (.num (now : ℚ)) ∧
      ∀ k, k ≠ "c" → fget (assignCTime now r).fields k = fget r.fields k) ∧
    ((∃ x ∈ coll, x.id = r.id) → AddRecord coll now r = .error .duplicateKey) ∧
    ((∀ x ∈ coll, x.id ≠ r.id) → AddRecord coll now r = .ok (coll ++ [assignCTime now r])) := by
  have hid : (assignCTime now r).id = r.id := by
    rw [assignCTime]; split <;> rfl
  refine ⟨hid, ?_, ?_, ?_, ?_⟩
  · intro v hv
    rw [assignCTime, if_pos (by rw [hv]; rfl)]
  · intro hnone
    have hcond : ¬ (fget r.fields "c").isSome = true := by rw [hnone]; simp
    constructor
    · rw [assignCTime, if_neg hcond]
      exact fget_fset_self _ _ _
    · intro k hk
      rw [assignCTime, if_neg hcond]
      exact fget_fset_ne _ _ _ _ hk
  · rintro ⟨x, hx, hxid⟩
    rw [AddRecord, insertOne, if_pos]
    rw [List.any_eq_true]
    exact ⟨x, hx, by rw [hid, hxid]; simp⟩
  · intro hall
    rw [AddRecord, insertOne, if_neg]
    rw [List.any_eq_true]
    rintro ⟨x, hx, hxid⟩
    rw [hid] at hxid
    exact hall x hx (by simpa using hxid)

/-- C4 witness: inserting a second record at key 5 into a partition that
already stores a record with key 5 fails with `DuplicateKey`. -/
theorem C4_addRecord_spec_witness :
    AddRecord [⟨5, [("WAU", .num 2)]⟩] 99 ⟨5, []⟩ = .error .duplicateKey :=
  (C4_addRecord_spec [⟨5, [("WAU", .num 2)]⟩] 99 ⟨5, []⟩).2.2.2.1
    ⟨⟨5, [("WAU", .num 2)]⟩, by simp⟩

/-! ## Interpolation lemmas -/

theorem getLastD_x_ge_head (q : Point α) (rest : List (Point α))
    (h : (q :: rest).Chain' (fun a b => a.x < b.x)) :
    q.x ≤ (rest.getLastD q).x := by
  induction rest generalizing q with
  | nil => simp [List.getLastD]
  | cons r rs ih =>
    rw [List.getLastD_cons]
    have h1 : q.x < r.x := (List.chain'_cons.mp h).1
    have h2 := ih r (List.chain'_cons.mp h).2
    linarith

theorem lerp_mem_segment (p q : Point α) (x : α)
    (h1 : p.x ≤ x) (h2 : x ≤ q.x) (hpq : p.x < q.x) :
    min p.y q.y ≤ lerp p q x ∧ lerp p q x ≤ max p.y q.y := by
  have hD : (0 : α) < q.x - p.x := by linarith
  have hDne : q.x - p.x ≠ 0 := ne_of_gt hD
  have hub : q.y - lerp p q x = (q.x - x) * (q.y - p.y) / (q.x - p.x) := by
    rw [lerp]; field_simp; ring
  have hlb : lerp p q x - p.y = (x - p.x) * (q.y - p.y) / (q.x - p.x) := by
    rw [lerp]; ring
  rcases le_total p.y q.y with hy | hy
  · rw [min_eq_left hy, max_eq_right hy]
    constructor
    · have hnn : 0 ≤ (x - p.x) * (q.y - p.y) / (q.x - p.x) :=
        div_nonneg (mul_nonneg (by linarith) (by linarith)) (le_of_lt hD)
      linarith [hlb]
    · have hnn : 0 ≤ (q.x - x) * (q.y - p.y) / (q.x - p.x) :=
        div_nonneg (mul_nonneg (by linarith) (by linarith)) (le_of_lt hD)
      linarith [hub]
  · rw [min_eq_right hy, max_eq_left hy]
    constructor
    · have hnp : (q.x - x) * (q.y - p.y) / (q.x - p.x) ≤ 0 :=
        div_nonpos_of_nonpos_of_nonneg
          (mul_nonpos_of_nonneg_of_nonpos (by linarith) (by linarith)) (le_of_lt hD)
      linarith [hub]
    · have hnp : (x - p.x) * (q.y - p.y) / (q.x - p.x) ≤ 0 :=
        div_nonpos_of_nonpos_of_nonneg
          (mul_nonpos_of_nonneg_of_nonpos (by linarith) (by linarith)) (le_of_lt hD)
      linarith [hlb]

theorem interpScan_spec (qs : List (Point α)) :
    ∀ (p : Point α) (x : α),
    (p :: qs).Chain' (fun a b => a.x < b.x) → p.x < x → x ≤ (qs.getLastD p).x →
    ∃ i, i + 1 < (p :: qs).length ∧
      ((p :: qs).getD i ⟨0, 0⟩).x < x ∧ x ≤ ((p :: qs).getD (i + 1) ⟨0, 0⟩).x ∧
      interpScan (p :: qs) x =
        lerp ((p :: qs).getD i ⟨0, 0⟩) ((p :: qs).getD (i + 1) ⟨0, 0⟩) x := by
  induction qs with
  | nil =>
    intro p x _ hlo hhi
    rw [List.getLastD] at hhi
    exact absurd hhi (not_le.mpr hlo)
  | cons q rest ih =>
    intro p x hch hlo hhi
    by_cases hq : x ≤ q.x
    · refine ⟨0, by simp, ?_, ?_, ?_⟩
      · simpa using hlo
      · simpa using hq
      · simp only [List.getD_cons_zero, List.getD_cons_succ]
        rw [interpScan, if_pos ⟨le_of_lt hlo, hq⟩]
    · push_neg at hq
      have hch2 : (q :: rest).Chain' (fun a b => a.x < b.x) := (List.chain'_cons.mp hch).2
      have hhi2 : x ≤ (rest.getLastD q).x := by
        rwa [List.getLastD_cons] at hhi
      obtain ⟨i, hlen, hl, hr, heq⟩ := ih q x hch2 hq hhi2
      refine ⟨i + 1, ?_, ?_, ?_, ?_⟩
      · simpa using Nat.succ_lt_succ hlen
      · simpa [List.getD_cons_succ] using hl
      · simpa [List.getD_cons_succ] using hr
      · have hstep : interpScan (p :: q :: rest) x = interpScan (q :: rest) x := by
          rw [interpScan, if_neg]
          rintro ⟨-, hx2⟩
          exact absurd hx2 (not_le.mpr hq)
        rw [hstep, heq]
        simp [List.getD_cons_succ]

/-! ## C7 — degenerate curves and boundary clamping -/

/-- C7: `Interpolate` returns the defined default 0 on an empty curve and
the single point's Y on a one-point curve, for every input; on a curve of
at least two strictly-ascending points it returns the first point's Y for
every `x` at or below the first X and the last point's Y for every `x` at
or above the last X. -/
theorem C7_interpolate_clamps (x : α) :
    Curve.interpolate (⟨[]⟩ : Curve α) x = 0 ∧
    (∀ p : Point α, Curve.interpolate ⟨[p]⟩ x = p.y) ∧
    (∀ (p q : Point α) (rest : List (Point α)),
      (p :: q :: rest).Chain' (fun a b => a.x < b.x) →
      (x ≤ p.x → Curve.interpolate ⟨p :: q :: rest⟩ x = p.y) ∧
      ((rest.getLastD q).x ≤ x →
        Curve.interpolate ⟨p :: q :: rest⟩ x = (rest.getLastD q).y)) := by
  refine ⟨rfl, fun p => rfl, fun p q rest hch => ⟨?_, ?_⟩⟩
  · intro hle
    rw [Curve.interpolate]
    simp only [if_pos hle]
  · intro hge
    have hpq : p.x < q.x := (List.chain'_cons.mp hch).1
    have hql : q.x ≤ (rest.getLastD q).x :=
      getLastD_x_ge_head q rest (List.chain'_cons.mp hch).2
    have hnle : ¬ x ≤ p.x := not_le.mpr (by linarith)
    rw [Curve.interpolate]
    simp only [if_neg hnle, if_pos hge]

/-- C7 witness: on the two-point rational curve (0,0),(2,3), inputs at or
below 0 yield 0 and inputs at or above 2 yield 3. -/
theorem C7_interpolate_clamps_witness :
    Curve.interpolate (⟨[]⟩ : Curve ℚ) (-5) = 0 ∧
    Curve.interpolate (⟨[⟨1, 7⟩]⟩ : Curve ℚ) (-5) = 7 ∧
    Curve.interpolate (⟨[⟨0, 0⟩, ⟨2, 3⟩]⟩ : Curve ℚ) (-5) = 0 ∧
    Curve.interpolate (⟨[⟨0, 0⟩, ⟨2, 3⟩]⟩ : Curve ℚ) 9 = 3 := by
  have hch : ((⟨0, 0⟩ : Point ℚ) :: (⟨2, 3⟩ : Point ℚ) :: []).Chain'
      (fun a b => a.x < b.x) := by
    simp [List.chain'_cons]
  refine ⟨(C7_interpolate_clamps (-5)).1, (C7_interpolate_clamps (-5)).2.1 ⟨1, 7⟩, ?_, ?_⟩
  · exact ((C7_interpolate_clamps (-5)).2.2 ⟨0, 0⟩ ⟨2, 3⟩ [] hch).1 (by norm_num)
  · exact ((C7_interpolate_clamps (9 : ℚ)).2.2 ⟨0, 0⟩ ⟨2, 3⟩ [] hch).2 (by norm_num [List.getLastD])

/-! ## C10 — NewCurve sorts its input ascending by X -/

/-- C10: for every input point list, in any order, `NewCurve` stores a
permutation of the input that is sorted ascending by X; callers need not
pre-sort calibration points. -/
theorem C10_newCurve_sorted (ps : List (Point α)) :
    (NewCurve ps).points.Sorted (fun p q => p.x ≤ q.x) ∧
    (NewCurve ps).points.Perm ps := by
  constructor
  · have hp := @List.sorted_mergeSort (Point α)
      (fun p q : Point α => decide (p.x ≤ q.x))
      (fun a b c hab hbc => by
        simp only [decide_eq_true_eq] at *
        exact le_trans hab hbc)
      (fun a b => by simpa using le_total a.x b.x) ps
    exact hp.imp (fun h => of_decide_eq_true h)
  · exact List.mergeSort_perm ps _

/-! ## C6 — bracketing interpolation and betweenness -/

/-- C6: on a curve of at least two strictly-ascending points, for every
`x` strictly between the first and last X, `Interpolate` returns
`y1 + (x-x1)*(y2-y1)/(x2-x1)` for a bracketing segment `(x1,y1)-(x2,y2)`
with `x1 ≤ x ≤ x2`, and the returned value lies between the Y values of
the bracketing points. -/
theorem C6_interpolate_bracket (p q : Point α) (rest : List (Point α)) (x : α)
    (hch : (p :: q :: rest).Chain' (fun a b => a.x < b.x))
    (hlo : p.x < x) (hhi : x < (rest.getLastD q).x) :
    ∃ i, i + 1 < (p :: q :: rest).length ∧
      ((p :: q :: rest).getD i ⟨0, 0⟩).x ≤ x ∧
      x ≤ ((p :: q :: rest).getD (i + 1) ⟨0, 0⟩).x ∧
      Curve.interpolate ⟨p :: q :: rest⟩ x =
        lerp ((p :: q :: rest).getD i ⟨0, 0⟩) ((p :: q :: rest).getD (i + 1) ⟨0, 0⟩) x ∧
      min ((p :: q :: rest).getD i ⟨0, 0⟩).y ((p :: q :: rest).getD (i + 1) ⟨0, 0⟩).y ≤
        Curve.interpolate ⟨p :: q :: rest⟩ x ∧
      Curve.interpolate ⟨p :: q :: rest⟩ x ≤
        max ((p :: q :: rest).getD i ⟨0, 0⟩).y ((p :: q :: rest).getD (i + 1) ⟨0, 0⟩).y := by
  have hnle : ¬ x ≤ p.x := not_le.mpr hlo
  have hnge : ¬ (rest.getLastD q).x ≤ x := not_le.mpr hhi
  have hinterp : Curve.interpolate ⟨p :: q :: rest⟩ x = interpScan (p :: q :: rest) x := by
    rw [Curve.interpolate]
    simp only [if_neg hnle, if_neg hnge]
  have hlast : x ≤ ((q :: rest).getLastD p).x := by
    rw [List.getLastD_cons]; exact le_of_lt hhi
  obtain ⟨i, hlen, hl, hr, heq⟩ := interpScan_spec (q :: rest) p x hch hlo hlast
  have hseg : ((p :: q :: rest).getD i ⟨0, 0⟩).x < ((p :: q :: rest).getD (i + 1) ⟨0, 0⟩).x :=
    lt_of_lt_of_le hl hr
  have hbtw := lerp_mem_segment ((p :: q :: rest).getD i ⟨0, 0⟩)
    ((p :: q :: rest).getD (i + 1) ⟨0, 0⟩) x (le_of_lt hl) hr hseg
  refine ⟨i, hlen, le_of_lt hl, hr, ?_, ?_, ?_⟩
  · rw [hinterp, heq]
  · rw [hinterp, heq]; exact hbtw.1
  · rw [hinterp, heq]; exact hbtw.2

/-- C6 witness: on the curve (0,0), (1,0.5), (2,1.2) the input 1.5 lies
strictly inside, the bracketing theorem applies, and the interpolated
value is 0.85. -/
theorem C6_interpolate_bracket_witness :
    (((⟨0, 0⟩ : Point ℚ) :: (⟨1, 0.5⟩ : Point ℚ) :: [(⟨2, 1.2⟩ : Point ℚ)]).Chain'
        (fun a b => a.x < b.x) ∧
      (⟨0, 0⟩ : Point ℚ).x < 1.5 ∧ (1.5 : ℚ) < (([(⟨2, 1.2⟩ : Point ℚ)]).getLastD ⟨1, 0.5⟩).x) ∧
    (∃ i, i + 1 < (((⟨0, 0⟩ : Point ℚ) :: ⟨1, 0.5⟩ :: [⟨2, 1.2⟩])).length ∧
      ((((⟨0, 0⟩ : Point ℚ) :: ⟨1, 0.5⟩ :: [⟨2, 1.2⟩])).getD i ⟨0, 0⟩).x ≤ 1.5 ∧
      (1.5 : ℚ) ≤ ((((⟨0, 0⟩ : Point ℚ) :: ⟨1, 0.5⟩ :: [⟨2, 1.2⟩])).getD (i + 1) ⟨0, 0⟩).x ∧
      Curve.interpolate ⟨((⟨0, 0⟩ : Point ℚ) :: ⟨1, 0.5⟩ :: [⟨2, 1.2⟩])⟩ 1.5 =
        lerp ((((⟨0, 0⟩ : Point ℚ) :: ⟨1, 0.5⟩ :: [⟨2, 1.2⟩])).getD i ⟨0, 0⟩)
          ((((⟨0, 0⟩ : Point ℚ) :: ⟨1, 0.5⟩ :: [⟨2, 1.2⟩])).getD (i + 1) ⟨0, 0⟩) 1.5 ∧
      min ((((⟨0, 0⟩ : Point ℚ) :: ⟨1, 0.5⟩ :: [⟨2, 1.2⟩])).getD i ⟨0, 0⟩).y
          ((((⟨0, 0⟩ : Point ℚ) :: ⟨1, 0.5⟩ :: [⟨2, 1.2⟩])).getD (i + 1) ⟨0, 0⟩).y ≤
        Curve.interpolate ⟨((⟨0, 0⟩ : Point ℚ) :: ⟨1, 0.5⟩ :: [⟨2, 1.2⟩])⟩ 1.5 ∧
      Curve.interpolate ⟨((⟨0, 0⟩ : Point ℚ) :: ⟨1, 0.5⟩ :: [⟨2, 1.2⟩])⟩ 1.5 ≤
        max ((((⟨0, 0⟩ : Point ℚ) :: ⟨1, 0.5⟩ :: [⟨2, 1.2⟩])).getD i ⟨0, 0⟩).y
          ((((⟨0, 0⟩ : Point ℚ) :: ⟨1, 0.5⟩ :: [⟨2, 1.2⟩])).getD (i + 1) ⟨0, 0⟩).y) ∧
    Curve.interpolate ⟨((⟨0, 0⟩ : Point ℚ) :: ⟨1, 0.5⟩ :: [⟨2, 1.2⟩])⟩ 1.5 = 0.85 := by
  have hch : (((⟨0, 0⟩ : Point ℚ) :: (⟨1, 0.5⟩ : Point ℚ) :: [(⟨2, 1.2⟩ : Point ℚ)]).Chain'
      (fun a b => a.x < b.x)) := by
    simp [List.chain'_cons]
  have hlo : ((⟨0, 0⟩ : Point ℚ)).x < 1.5 := by norm_num
  have hhi : (1.5 : ℚ) < (([(⟨2, 1.2⟩ : Point ℚ)]).getLastD ⟨1, 0.5⟩).x := by
    norm_num [List.getLastD]
  refine ⟨⟨hch, hlo, hhi⟩, C6_interpolate_bracket _ _ _ _ hch hlo hhi, ?_⟩
  rw [Curve.interpolate]
  simp only [List.getLastD]
  rw [if_neg (by norm_num), if_neg (by norm_num)]
  rw [interpScan, if_neg (by norm_num), interpScan, if_pos (by norm_num)]
  rw [lerp]
  norm_num

/-! ## C8 — the derived-metric calculator never errors and only touches V/Q/Q_of -/

/-- C8: `applyInterpolation` is a total function (the Go function returns a
record and no error value); when the level field `WAU` is absent or holds
exactly zero the record passes through unchanged, and in every case no
field other than `V`, `Q` and `Q_of` is added, removed or modified. -/
theorem C8_applyInterpolation_frame (s : HydraulicCalculator) (r : RecordR) :
    (fget r "WAU" = none → applyInterpolation s r = r) ∧
    (fget r "WAU" = some (GoVal.num 0) → applyInterpolation s r = r) ∧
    (∀ k, k ≠ "V" → k ≠ "Q" → k ≠ "Q_of" →
      fget (applyInterpolation s r) k = fget r k) := by
  have hpass : getFloat r "WAU" = 0 → applyInterpolation s r = r := by
    intro h
    rw [applyInterpolation]
    simp only [h, eq_self_iff_true, if_true]
  refine ⟨?_, ?_, ?_⟩
  · intro h
    exact hpass (by rw [getFloat, h])
  · intro h
    exact hpass (by rw [getFloat, h])
  · intro k hV hQ hQof
    by_cases h : getFloat r "WAU" = 0
    · rw [hpass h]
    · rw [applyInterpolation]
      simp only [if_neg h]
      rw [fget_fset_ne _ _ _ _ hQof]
      by_cases hdr :
          0 < getFloat (fset r "V" (GoVal.num (RoundValueR (CalculateWaterIndex s (getFloat r "WAU"))))) "DR"
      · rw [if_pos hdr, fget_fset_ne _ _ _ _ hQ, fget_fset_ne _ _ _ _ hV]
      · rw [if_neg hdr, fget_fset_ne _ _ _ _ hV]

/-- C8 witness: a record without a `WAU` field passes through the
calculator unchanged. -/
theorem C8_applyInterpolation_frame_witness :
    applyInterpolation NewHydraulicCalculator [("x", GoVal.num (5 : ℝ))] =
      [("x", GoVal.num (5 : ℝ))] :=
  (C8_applyInterpolation_frame NewHydraulicCalculator [("x", GoVal.num (5 : ℝ))]).1
    (by simp [fget])

/-! ## C5 — overflow formula and its value at the default parameters -/

theorem sqrt_196_le : Real.sqrt 156.96 ≤ 12.529 := by
  have h1 : Real.sqrt 156.96 ≤ Real.sqrt 156.975841 :=
    Real.sqrt_le_sqrt (by norm_num)
  have h2 : Real.sqrt 156.975841 = 12.529 := by
    rw [show (156.975841 : ℝ) = 12.529 ^ 2 by norm_num]
    exact Real.sqrt_sq (by norm_num)
  linarith

theorem le_sqrt_196 : 12.5276 ≤ Real.sqrt 156.96 := by
  have h1 : Real.sqrt 156.94076176 ≤ Real.sqrt 156.96 :=
    Real.sqrt_le_sqrt (by norm_num)
  have h2 : Real.sqrt 156.94076176 = 12.5276 := by
    rw [show (156.94076176 : ℝ) = 12.5276 ^ 2 by norm_num]
    exact Real.sqrt_sq (by norm_num)
  linarith

/-- The default-parameter overflow at water level 2 in closed sqrt form:
`0.49 * 10 * sqrt(19.62) * 2^1.5 = 4.9 * sqrt(156.96)`. -/
theorem overflowTwo_closed_form :
    CalculateWaterOverFlow NewHydraulicCalculator 2 = 4.9 * Real.sqrt 156.96 := by
  rw [CalculateWaterOverFlow, if_neg (by norm_num)]
  simp only [NewHydraulicCalculator]
  have hpow : (2 : ℝ) ^ (1.5 : ℝ) = Real.sqrt 8 := by
    rw [show (1.5 : ℝ) = (3 : ℝ) * (1 / 2) by norm_num,
      Real.rpow_mul (by norm_num : (0 : ℝ) ≤ 2),
      show (3 : ℝ) = ((3 : ℕ) : ℝ) by norm_num,
      Real.rpow_natCast, ← Real.sqrt_eq_rpow]
    norm_num
  have hprod : Real.sqrt (2 * 9.81) * Real.sqrt 8 = Real.sqrt 156.96 := by
    rw [← Real.sqrt_mul (by norm_num : (0 : ℝ) ≤ 2 * 9.81)]
    norm_num
  rw [hpow]
  calc (0.49 : ℝ) * 10 * Real.sqrt (2 * 9.81) * Real.sqrt 8
      = 4.9 * (Real.sqrt (2 * 9.81) * Real.sqrt 8) := by ring
    _ = 4.9 * Real.sqrt 156.96 := by rw [hprod]

/-- Rounded to 2 decimals, the default-parameter overflow at level 2 is
exactly 61.39. -/
theorem overflowTwo_rounded :
    RoundValueR (CalculateWaterOverFlow NewHydraulicCalculator 2) = 61.39 := by
  rw [overflowTwo_closed_form]
  have hlo := le_sqrt_196
  have hhi := sqrt_196_le
  rw [RoundValueR, truncTowardZeroR, if_pos (by nlinarith)]
  have hfloor : ⌊(4.9 * Real.sqrt 156.96) * 100 + 0.5⌋ = 6139 := by
    rw [Int.floor_eq_iff]
    constructor
    · push_cast; nlinarith
    · push_cast; nlinarith
  rw [hfloor]
  norm_num

/-- C5 (amended): the overflow output `Q_of` written by the calculator is
`RoundValueR` of `CalculateWaterOverFlow`, which equals
`m * B * sqrt(2*g) * L^1.5` rounded to 2 decimals when `L > 0` and 0 when
`L ≤ 0`; at the default parameters m=0.49, B=10, g=9.81 and L=2 the
rounded overflow is 61.39 (not 61.30). -/
theorem C5_overflow_output (s : HydraulicCalculator) (r : RecordR) (L : ℝ)
    (hW : getFloat r "WAU" = L) (hL : L ≠ 0) :
    fget (applyInterpolation s r) "Q_of" =
      some (GoVal.num (RoundValueR (CalculateWaterOverFlow s L))) ∧
    (0 < L → CalculateWaterOverFlow s L =
      s.overflowM * s.overflowB * Real.sqrt (2 * s.overflowG) * L ^ (1.5 : ℝ)) ∧
    (L ≤ 0 → CalculateWaterOverFlow s L = 0 ∧
      RoundValueR (CalculateWaterOverFlow s L) = 0) ∧
    RoundValueR (CalculateWaterOverFlow NewHydraulicCalculator 2) = 61.39 := by
  refine ⟨?_, ?_, ?_, overflowTwo_rounded⟩
  · rw [applyInterpolation]
    simp only [hW, if_neg hL]
    exact fget_fset_self _ _ _
  · intro h0
    rw [CalculateWaterOverFlow, if_neg (not_le.mpr h0)]
  · intro h0
    have hz : CalculateWaterOverFlow s L = 0 := by
      rw [CalculateWaterOverFlow, if_pos h0]
    refine ⟨hz, ?_⟩
    rw [hz, RoundValueR, truncTowardZeroR, if_pos (by norm_num)]
    have : ⌊(0 : ℝ) * 100 + 0.5⌋ = 0 := by
      rw [Int.floor_eq_iff]
      norm_num
    rw [this]
    norm_num

/-- C5 witness: at the default calculator and the record holding
`WAU = 2`, the stored `Q_of` value is the rounded overflow 61.39. -/
theorem C5_overflow_output_witness :
    fget (applyInterpolation NewHydraulicCalculator [("WAU", GoVal.num (2 : ℝ))]) "Q_of" =
      some (GoVal.num (RoundValueR (CalculateWaterOverFlow NewHydraulicCalculator 2))) ∧
    RoundValueR (CalculateWaterOverFlow NewHydraulicCalculator 2) = 61.39 :=
  ⟨(C5_overflow_output NewHydraulicCalculator [("WAU", GoVal.num (2 : ℝ))] 2
      (by simp [getFloat, fget]) (by norm_num)).1,
    (C5_overflow_output NewHydraulicCalculator [("WAU", GoVal.num (2 : ℝ))] 2
      (by simp [getFloat, fget]) (by norm_num)).2.2.2⟩

/-- C5 counterexample: the spec's example value is wrong — with m=0.49,
B=10, g=9.81, L=2 the overflow rounded to 2 decimals is 61.39, not 61.30. -/
theorem C5_overflow_counterexample :
    RoundValueR (CalculateWaterOverFlow NewHydraulicCalculator 2) ≠ 61.30 ∧
    RoundValueR (CalculateWaterOverFlow NewHydraulicCalculator 2) = 61.39 := by
  refine ⟨?_, overflowTwo_rounded⟩
  rw [overflowTwo_rounded]
  norm_num

/-! ## C1 — multi-partition range query merge -/

/-- C1: for a non-empty partition list, `ListRecordsByGroup` filters every
partition with the same inclusive range, tags matches with their partition
key, and returns (a) a total equal to the sum of per-partition match
counts, (b) a page obtained by sorting the concatenation of all tagged
matches by record key descending and applying skip/limit once over the
merged list, which is therefore (c) sorted descending by key, (d) at most
`limit` long, and (e) made only of range-matching records tagged with
their own partition's key. -/
theorem C1_listRecordsByGroup_merge (parts : List (String × List Rec)) (t0 t1 : ℤ)
    (skip limit : ℕ) (hne : parts ≠ []) :
    (ListRecordsByGroup parts t0 t1 skip limit).2 =
      (parts.map (fun p => (p.2.filter (matchesRange t0 t1)).length)).sum ∧
    (∃ all : List (String × Rec),
      all.Perm (parts.flatMap (taggedMatches t0 t1)) ∧
      all.Sorted (fun a b => b.2.id ≤ a.2.id) ∧
      (ListRecordsByGroup parts t0 t1 skip limit).1 = (all.drop skip).take limit) ∧
    (ListRecordsByGroup parts t0 t1 skip limit).1.Sorted (fun a b => b.2.id ≤ a.2.id) ∧
    (ListRecordsByGroup parts t0 t1 skip limit).1.length ≤ limit ∧
    (∀ e ∈ (ListRecordsByGroup parts t0 t1 skip limit).1,
      ∃ recs, (e.1, recs) ∈ parts ∧ e.2 ∈ recs ∧ matchesRange t0 t1 e.2 = true) := by
  have hemp : ¬ parts.isEmpty = true := by
    simpa [List.isEmpty_iff] using hne
  have hout : ListRecordsByGroup parts t0 t1 skip limit =
      ((((parts.flatMap (taggedMatches t0 t1)).mergeSort
          (fun a b => decide (b.2.id ≤ a.2.id))).drop skip).take limit,
        (parts.flatMap (taggedMatches t0 t1)).length) := by
    rw [ListRecordsByGroup, if_neg hemp]
  have hperm : ((parts.flatMap (taggedMatches t0 t1)).mergeSort
      (fun a b => decide (b.2.id ≤ a.2.id))).Perm (parts.flatMap (taggedMatches t0 t1)) :=
    List.mergeSort_perm _ _
  have hsorted : ((parts.flatMap (taggedMatches t0 t1)).mergeSort
      (fun a b => decide (b.2.id ≤ a.2.id))).Sorted (fun a b => b.2.id ≤ a.2.id) := by
    have hp := @List.sorted_mergeSort (String × Rec)
      (fun a b : String × Rec => decide (b.2.id ≤ a.2.id))
      (fun a b c hab hbc => by
        simp only [decide_eq_true_eq] at *
        exact le_trans hbc hab)
      (fun a b => by simpa using le_total b.2.id a.2.id)
      (parts.flatMap (taggedMatches t0 t1))
    exact hp.imp (fun h => of_decide_eq_true h)
  have hpage : ((((parts.flatMap (taggedMatches t0 t1)).mergeSort
      (fun a b => decide (b.2.id ≤ a.2.id))).drop skip).take limit).Sublist
      ((parts.flatMap (taggedMatches t0 t1)).mergeSort
        (fun a b => decide (b.2.id ≤ a.2.id))) :=
    (List.take_sublist _ _).trans (List.drop_sublist _ _)
  refine ⟨?_, ?_, ?_, ?_, ?_⟩
  · rw [hout]
    simp [List.length_flatMap, taggedMatches, Function.comp_def]
  · exact ⟨_, hperm, hsorted, by rw [hout]⟩
  · rw [hout]
    exact List.Pairwise.sublist hpage hsorted
  · rw [hout]
    simp only [List.length_take]
    exact min_le_left _ _
  · intro e he
    rw [hout] at he
    have hmem : e ∈ parts.flatMap (taggedMatches t0 t1) :=
      hperm.mem_iff.mp (hpage.subset he)
    rw [List.mem_flatMap] at hmem
    obtain ⟨p, hp, hmem⟩ := hmem
    rw [taggedMatches, List.mem_map] at hmem
    obtain ⟨rec, hrec, hrecEq⟩ := hmem
    rw [List.mem_filter] at hrec
    refine ⟨p.2, ?_, ?_, ?_⟩
    · rw [← hrecEq]; simpa using hp
    · rw [← hrecEq]; exact hrec.1
    · rw [← hrecEq]; exact hrec.2

/-- C1 witness: three partitions holding 5, 0 and 3 matching records;
the query with skip 0 and limit 4 returns the 4 most recent of all 8
records, sorted descending by key and tagged with their partition, with
total 8. -/
theorem C1_listRecordsByGroup_merge_witness :
    (([("A", [⟨100, []⟩, ⟨99, []⟩, ⟨98, []⟩, ⟨97, []⟩, ⟨96, []⟩]),
       ("B", ([] : List Rec)),
       ("C", [⟨95, []⟩, ⟨94, []⟩, ⟨93, []⟩])] : List (String × List Rec)) ≠ []) ∧
    (ListRecordsByGroup
        [("A", [⟨100, []⟩, ⟨99, []⟩, ⟨98, []⟩, ⟨97, []⟩, ⟨96, []⟩]),
         ("B", ([] : List Rec)),
         ("C", [⟨95, []⟩, ⟨94, []⟩, ⟨93, []⟩])] 0 1000 0 4).2 =
      (([("A", [⟨100, []⟩, ⟨99, []⟩, ⟨98, []⟩, ⟨97, []⟩, ⟨96, []⟩]),
         ("B", ([] : List Rec)),
         ("C", [⟨95, []⟩, ⟨94, []⟩, ⟨93, []⟩])] : List (String × List Rec)).map
        (fun p => (p.2.filter (matchesRange 0 1000)).length)).sum ∧
    ListRecordsByGroup
        [("A", [⟨100, []⟩, ⟨99, []⟩, ⟨98, []⟩, ⟨97, []⟩, ⟨96, []⟩]),
         ("B", ([] : List Rec)),
         ("C", [⟨95, []⟩, ⟨94, []⟩, ⟨93, []⟩])] 0 1000 0 4 =
      ([("A", ⟨100, []⟩), ("A", ⟨99, []⟩), ("A", ⟨98, []⟩), ("A", ⟨97, []⟩)], 8) := by
  have hmerged :
      (([("A", [⟨100, []⟩, ⟨99, []⟩, ⟨98, []⟩, ⟨97, []⟩, ⟨96, []⟩]),
         ("B", ([] : List Rec)),
         ("C", [⟨95, []⟩, ⟨94, []⟩, ⟨93, []⟩])] : List (String × List Rec)).flatMap
        (taggedMatches 0 1000)) =
      [("A", ⟨100, []⟩), ("A", ⟨99, []⟩), ("A", ⟨98, []⟩), ("A", ⟨97, []⟩), ("A", ⟨96, []⟩),
       ("C", ⟨95, []⟩), ("C", ⟨94, []⟩), ("C", ⟨93, []⟩)] := by
    simp [taggedMatches, matchesRange]
  have hsorted :
      ([("A", (⟨100, []⟩ : Rec)), ("A", ⟨99, []⟩), ("A", ⟨98, []⟩), ("A", ⟨97, []⟩),
        ("A", ⟨96, []⟩), ("C", ⟨95, []⟩), ("C", ⟨94, []⟩),
        ("C", ⟨93, []⟩)] : List (String × Rec)).mergeSort
        (fun a b => decide (b.2.id ≤ a.2.id)) =
      [("A", ⟨100, []⟩), ("A", ⟨99, []⟩), ("A", ⟨98, []⟩), ("A", ⟨97, []⟩), ("A", ⟨96, []⟩),
       ("C", ⟨95, []⟩), ("C", ⟨94, []⟩), ("C", ⟨93, []⟩)] :=
    List.mergeSort_of_sorted (by simp)
  refine ⟨by simp, ?_, ?_⟩
  · exact (C1_listRecordsByGroup_merge _ 0 1000 0 4 (by simp)).1
  · rw [ListRecordsByGroup, if_neg (by simp)]
    simp only [hmerged, hsorted]
    rfl

/-! ## C3 — daily rollup -/

theorem uniqKeys_nodup {κ : Type} [DecidableEq κ] (seen : List κ) (l : List κ) :
    (uniqKeys seen l).Nodup := by
  induction l generalizing seen with
  | nil => simp [uniqKeys]
  | cons a l ih =>
    by_cases ha : a ∈ seen
    · simpa [uniqKeys, if_pos ha] using ih seen
    · rw [uniqKeys, if_neg ha]
      refine List.nodup_cons.mpr ⟨?_, ih (a :: seen)⟩
      intro hmem
      exact ((mem_uniqKeys (a :: seen) l a).mp hmem).2 (List.mem_cons_self a seen)

theorem foldl_min_mem {γ : Type} [LinearOrder γ] (vs : List γ) :
    ∀ v : γ, vs.foldl min v ∈ v :: vs := by
  induction vs with
  | nil => intro v; simp
  | cons a tl ih =>
    intro v
    simp only [List.foldl_cons]
    rcases List.mem_cons.mp (ih (min v a)) with hm | hm
    · rcases min_choice v a with hc | hc
      · rw [hm, hc]; exact List.mem_cons_self _ _
      · rw [hm, hc]; exact List.mem_cons_of_mem _ (List.mem_cons_self _ _)
    · exact List.mem_cons_of_mem _ (List.mem_cons_of_mem _ hm)

theorem foldl_min_le {γ : Type} [LinearOrder γ] (vs : List γ) :
    ∀ v : γ, ∀ u ∈ v :: vs, vs.foldl min v ≤ u := by
  induction vs with
  | nil =>
    intro v u hu
    rw [List.mem_singleton] at hu
    subst hu
    simp
  | cons a tl ih =>
    intro v u hu
    simp only [List.foldl_cons]
    have hfle : tl.foldl min (min v a) ≤ min v a :=
      ih (min v a) (min v a) (List.mem_cons_self _ _)
    rcases List.mem_cons.mp hu with hm | hm
    · rw [hm]; exact hfle.trans (min_le_left _ _)
    · rcases List.mem_cons.mp hm with hm2 | hm2
      · rw [hm2]; exact hfle.trans (min_le_right _ _)
      · exact ih (min v a) u (List.mem_cons_of_mem _ hm2)

theorem foldl_max_mem {γ : Type} [LinearOrder γ] (vs : List γ) :
    ∀ v : γ, vs.foldl max v ∈ v :: vs := by
  induction vs with
  | nil => intro v; simp
  | cons a tl ih =>
    intro v
    simp only [List.foldl_cons]
    rcases List.mem_cons.mp (ih (max v a)) with hm | hm
    · rcases max_choice v a with hc | hc
      · rw [hm, hc]; exact List.mem_cons_self _ _
      · rw [hm, hc]; exact List.mem_cons_of_mem _ (List.mem_cons_self _ _)
    · exact List.mem_cons_of_mem _ (List.mem_cons_of_mem _ hm)

theorem foldl_max_ge {γ : Type} [LinearOrder γ] (vs : List γ) :
    ∀ v : γ, ∀ u ∈ v :: vs, u ≤ vs.foldl max v := by
  induction vs with
  | nil =>
    intro v u hu
    rw [List.mem_singleton] at hu
    subst hu
    simp
  | cons a tl ih =>
    intro v u hu
    simp only [List.foldl_cons]
    have hfge : max v a ≤ tl.foldl max (max v a) :=
      ih (max v a) (max v a) (List.mem_cons_self _ _)
    rcases List.mem_cons.mp hu with hm | hm
    · rw [hm]; exact (le_max_left _ _).trans hfge
    · rcases List.mem_cons.mp hm with hm2 | hm2
      · rw [hm2]; exact (le_max_right _ _).trans hfge
      · exact ih (max v a) u (List.mem_cons_of_mem _ hm2)

/-- C3 (amended): `ReportRecords` emits one row per distinct UTC calendar
date among the range-matching records, in strictly ascending date order;
each row's `Count` is its date bucket's total record count, and for every
field (other than the reserved `_id`/`c`/`date` keys) with numeric
occurrences `v1..vn` in the bucket, the row reports
`avg = round2(sum vi / n)` (n the per-field occurrence count, independent
of the bucket size), `min = round2(min vi)` and `max = round2(max vi)`;
fields with no numeric occurrence in the bucket are absent from the
statistics maps. -/
theorem C3_reportRecords_daily (recs : List Rec) (t0 t1 : ℤ) :
    ((ReportRecords recs t0 t1).map (fun rep => rep.date)).Sorted (· < ·) ∧
    (∀ r ∈ recs.filter (matchesRange t0 t1),
      ∃ rep ∈ ReportRecords recs t0 t1, rep.date = dayOfSecs r.id) ∧
    (∀ rep ∈ ReportRecords recs t0 t1,
      (recs.filter (matchesRange t0 t1)).filter
          (fun r => dayOfSecs r.id = rep.date) ≠ [] ∧
      rep.count = ((recs.filter (matchesRange t0 t1)).filter
          (fun r => dayOfSecs r.id = rep.date)).length ∧
      (∀ f, metricVals ((recs.filter (matchesRange t0 t1)).filter
          (fun r => dayOfSecs r.id = rep.date)) f = [] →
        rep.avg f = none ∧ rep.min f = none ∧ rep.max f = none) ∧
      (∀ f v vs, metricVals ((recs.filter (matchesRange t0 t1)).filter
          (fun r => dayOfSecs r.id = rep.date)) f = v :: vs →
        rep.avg f = some (RoundValue ((v :: vs).sum / ((v :: vs).length : ℚ))) ∧
        (∃ m, rep.min f = some (RoundValue m) ∧ m ∈ v :: vs ∧ ∀ u ∈ v :: vs, m ≤ u) ∧
        (∃ M, rep.max f = some (RoundValue M) ∧ M ∈ v :: vs ∧ ∀ u ∈ v :: vs, u ≤ M))) := by
  have hsortedDays : ((uniqKeys []
      ((recs.filter (matchesRange t0 t1)).map (fun r => dayOfSecs r.id))).mergeSort
        (fun a b => decide (a ≤ b))).Sorted (· ≤ ·) := by
    have hp := @List.sorted_mergeSort ℤ
      (fun a b : ℤ => decide (a ≤ b))
      (fun a b c hab hbc => by
        simp only [decide_eq_true_eq] at *
        exact le_trans hab hbc)
      (fun a b => by simpa using le_total a b)
      (uniqKeys [] ((recs.filter (matchesRange t0 t1)).map (fun r => dayOfSecs r.id)))
    exact hp.imp (fun h => of_decide_eq_true h)
  have hnodupDays : ((uniqKeys []
      ((recs.filter (matchesRange t0 t1)).map (fun r => dayOfSecs r.id))).mergeSort
        (fun a b => decide (a ≤ b))).Nodup :=
    (List.mergeSort_perm _ _).nodup_iff.mpr (uniqKeys_nodup _ _)
  refine ⟨?_, ?_, ?_⟩
  · rw [ReportRecords]
    rw [List.map_map]
    have : ((fun rep => DailyReport.date rep) ∘
        (fun day => mkDailyReport day ((recs.filter (matchesRange t0 t1)).filter
          (fun r => dayOfSecs r.id = day)))) = (id : ℤ → ℤ) := by
      funext day; rfl
    rw [this, List.map_id]
    exact hsortedDays.lt_of_le hnodupDays
  · intro r hr
    rw [ReportRecords]
    have hday : dayOfSecs r.id ∈ uniqKeys []
        ((recs.filter (matchesRange t0 t1)).map (fun x => dayOfSecs x.id)) := by
      rw [mem_uniqKeys]
      exact ⟨List.mem_map.mpr ⟨r, hr, rfl⟩, by simp⟩
    have hday2 : dayOfSecs r.id ∈ (uniqKeys []
        ((recs.filter (matchesRange t0 t1)).map (fun x => dayOfSecs x.id))).mergeSort
          (fun a b => decide (a ≤ b)) :=
      (List.mergeSort_perm _ _).mem_iff.mpr hday
    exact ⟨_, List.mem_map.mpr ⟨dayOfSecs r.id, hday2, rfl⟩, rfl⟩
  · intro rep hrep
    rw [ReportRecords] at hrep
    obtain ⟨day, hday, hmk⟩ := List.mem_map.mp hrep
    have hdate : rep.date = day := by rw [← hmk]; rfl
    subst hmk
    have hdaymem : day ∈ uniqKeys []
        ((recs.filter (matchesRange t0 t1)).map (fun x => dayOfSecs x.id)) :=
      (List.mergeSort_perm _ _).mem_iff.mp hday
    simp only [hdate]
    have hbne : (recs.filter (matchesRange t0 t1)).filter
        (fun r => dayOfSecs r.id = day) ≠ [] := by
      obtain ⟨r, hr, hrd⟩ := List.mem_map.mp ((mem_uniqKeys _ _ _).mp hdaymem).1
      intro hnil
      rw [List.filter_eq_nil_iff] at hnil
      exact hnil r hr (by simp [hrd])
    refine ⟨by simpa using hbne, rfl, ?_, ?_⟩
    · intro f hf
      refine ⟨?_, ?_, ?_⟩ <;>
        simp only [mkDailyReport, hf]
    · intro f v vs hf
      refine ⟨?_, ⟨vs.foldl min v, ?_, ?_, ?_⟩, ⟨vs.foldl max v, ?_, ?_, ?_⟩⟩
      · simp only [mkDailyReport, hf]
      · simp only [mkDailyReport, hf]
      · exact foldl_min_mem vs v
      · exact foldl_min_le vs v
      · simp only [mkDailyReport, hf]
      · exact foldl_max_mem vs v
      · exact foldl_max_ge vs v

/-- C3 witness: one bucket (day 0) with two records holding the numeric
field `v` with values 1 and 2: the row reports count 2, avg 1.5,
min 1, max 2. -/
theorem C3_reportRecords_daily_witness :
    (⟨0, [("v", GoVal.num 1)]⟩ : Rec) ∈
      ([⟨0, [("v", GoVal.num 1)]⟩, ⟨10, [("v", GoVal.num 2)]⟩] :
        List Rec).filter (matchesRange 0 100) ∧
    (∃ rep ∈ ReportRecords [⟨0, [("v", GoVal.num 1)]⟩, ⟨10, [("v", GoVal.num 2)]⟩] 0 100,
      rep.date = dayOfSecs 0) ∧
    (ReportRecords [⟨0, [("v", GoVal.num 1)]⟩, ⟨10, [("v", GoVal.num 2)]⟩] 0 100).map
        (fun rep => (rep.date, rep.count, rep.avg "v", rep.min "v", rep.max "v")) =
      [(0, 2, some (3/2), some 1, some 2)] := by
  refine ⟨?_, ?_, ?_⟩
  · simp [matchesRange]
  · exact (C3_reportRecords_daily
        [⟨0, [("v", GoVal.num 1)]⟩, ⟨10, [("v", GoVal.num 2)]⟩] 0 100).2.1
      ⟨0, [("v", GoVal.num 1)]⟩ (by simp [matchesRange])
  · have h1 : ([⟨0, [("v", GoVal.num 1)]⟩, ⟨10, [("v", GoVal.num 2)]⟩] :
        List Rec).filter (matchesRange 0 100) =
        [⟨0, [("v", GoVal.num 1)]⟩, ⟨10, [("v", GoVal.num 2)]⟩] := by
      simp [matchesRange]
    have h2 : dayOfSecs 0 = 0 := by decide
    have h3 : dayOfSecs 10 = 0 := by decide
    rw [ReportRecords]
    simp only [h1, List.map_cons, List.map_nil, h2, h3]
    rw [show uniqKeys [] [(0 : ℤ), 0] = [0] by decide, List.mergeSort_singleton]
    simp [mkDailyReport, metricVals, fget, h2, h3]
    norm_num [RoundValue, truncTowardZero]

/-- C3 counterexample: a single record whose field `v` holds 0.006 — the
code publishes `min = max = 0.01` (rounded), while the claim asserts the
raw minimum/maximum 0.006. -/
theorem C3_reportRecords_counterexample :
    (ReportRecords [⟨0, [("v", GoVal.num (3/500))]⟩] 0 0).map
        (fun rep => (rep.min "v", rep.max "v")) =
      [(some (1/100), some (1/100))] ∧
    (1/100 : ℚ) ≠ 3/500 := by
  constructor
  · have h1 : ([⟨0, [("v", GoVal.num (3/500))]⟩] : List Rec).filter (matchesRange 0 0) =
        [⟨0, [("v", GoVal.num (3/500))]⟩] := by
      simp [matchesRange]
    have h2 : dayOfSecs 0 = 0 := by decide
    rw [ReportRecords]
    simp only [h1, List.map_cons, List.map_nil, h2]
    rw [show uniqKeys [] [(0 : ℤ)] = [0] by decide, List.mergeSort_singleton]
    simp [mkDailyReport, metricVals, fget, h2]
    norm_num [RoundValue, truncTowardZero]
  · norm_num

/-! ## C2 — monthly rollup by metric -/

/-- C2 (amended): `ReportByMetric` processes each source independently and
concatenates their rows, so the number of rows is the sum over sources;
and a row belongs to the output iff some source has a UTC (year, month)
bucket in which the requested metric has at least one numeric occurrence,
the row's total being the rounded sum of exactly those occurrences and the
row's count being the bucket's total record count (not the number of
numeric occurrences); zero-occurrence combinations produce no row. -/
theorem C2_reportByMetric_monthly (sources : List (String × List TRec))
    (metrics : List String) :
    (ReportByMetric sources metrics).length =
      (sources.map (fun s => (reportOneSource s.2 metrics).length)).sum ∧
    (∀ rep, rep ∈ ReportByMetric sources metrics ↔
      ∃ s ∈ sources, ∃ k : ℤ × ℤ, ∃ mc, mc ∈ metrics ∧
        metricValsT (monthBucket s.2 k) mc ≠ [] ∧
        rep = { year := k.1, month := k.2, metric := mc,
                count := (monthBucket s.2 k).length,
                total := RoundValue (metricValsT (monthBucket s.2 k) mc).sum }) := by
  constructor
  · simp [ReportByMetric, List.length_flatMap, Function.comp_def]
  · intro rep
    constructor
    · intro hrep
      rw [ReportByMetric, List.mem_flatMap] at hrep
      obtain ⟨s, hs, hrep⟩ := hrep
      rw [reportOneSource, List.mem_flatMap] at hrep
      obtain ⟨k, hk, hrep⟩ := hrep
      rw [List.mem_flatMap] at hrep
      obtain ⟨mc, hmc, hrep⟩ := hrep
      by_cases hval : (metricValsT (monthBucket s.2 k) mc).length ≠ 0
      · rw [if_pos hval, List.mem_singleton] at hrep
        refine ⟨s, hs, k, mc, hmc, ?_, hrep⟩
        intro hnil
        exact hval (by rw [hnil]; rfl)
      · rw [if_neg hval] at hrep
        exact absurd hrep (List.not_mem_nil rep)
    · rintro ⟨s, hs, k, mc, hmc, hval, hrep⟩
      rw [ReportByMetric, List.mem_flatMap]
      refine ⟨s, hs, ?_⟩
      rw [reportOneSource, List.mem_flatMap]
      have hbne : monthBucket s.2 k ≠ [] := by
        intro hnil
        exact hval (by rw [metricValsT, hnil]; rfl)
      obtain ⟨r, hr⟩ := List.exists_mem_of_ne_nil _ hbne
      have hrmem : r ∈ (s.2.filter (fun x => x.t.isSome)) ∧ ymOfSecs (r.t.getD 0) = k := by
        have := List.mem_filter.mp hr
        exact ⟨this.1, by simpa using this.2⟩
      refine ⟨k, ?_, ?_⟩
      · rw [mem_uniqKeys]
        exact ⟨List.mem_map.mpr ⟨r, hrmem.1, hrmem.2⟩, by simp⟩
      · rw [List.mem_flatMap]
        refine ⟨mc, hmc, ?_⟩
        rw [if_pos (by
          intro hlen
          exact hval (List.length_eq_zero.mp hlen))]
        rw [List.mem_singleton]
        exact hrep

/-- C2 witness: one source with two January-1970 records, only one of
which carries the numeric metric `A`: exactly one row is emitted, for
(1970, 1, "A"), and its membership follows from the characterization. -/
theorem C2_reportByMetric_monthly_witness :
    ({ year := 1970, month := 1, metric := "A",
       count := (monthBucket [⟨some 0, [("A", GoVal.num 1)]⟩, ⟨some 3600, []⟩]
         ((1970 : ℤ), (1 : ℤ))).length,
       total := RoundValue (metricValsT (monthBucket
         [⟨some 0, [("A", GoVal.num 1)]⟩, ⟨some 3600, []⟩]
         ((1970 : ℤ), (1 : ℤ))) "A").sum } : Report) ∈
      ReportByMetric [("b1", [⟨some 0, [("A", GoVal.num 1)]⟩, ⟨some 3600, []⟩])] ["A"] ∧
    (ReportByMetric [("b1", [⟨some 0, [("A", GoVal.num 1)]⟩, ⟨some 3600, []⟩])] ["A"]).map
      (fun rep => (rep.year, rep.month, rep.metric, rep.count)) = [(1970, 1, "A", 2)] := by
  constructor
  · exact ((C2_reportByMetric_monthly
        [("b1", [⟨some 0, [("A", GoVal.num 1)]⟩, ⟨some 3600, []⟩])] ["A"]).2 _).mpr
      ⟨("b1", [⟨some 0, [("A", GoVal.num 1)]⟩, ⟨some 3600, []⟩]), by simp,
        ((1970 : ℤ), (1 : ℤ)), "A", by simp, by decide, rfl⟩
  · decide

/-- C2 counterexample: in that same bucket of two records the metric `A`
has exactly one numeric occurrence, yet the emitted row's count is 2 (the
bucket's record count) — the claim's "the row's count counts those
occurrences" fails. -/
theorem C2_reportByMetric_counterexample :
    (ReportByMetric [("b1", [⟨some 0, [("A", GoVal.num 1)]⟩, ⟨some 3600, []⟩])] ["A"]).map
      (fun rep => rep.count) = [2] ∧
    (metricValsT (monthBucket [⟨some 0, [("A", GoVal.num 1)]⟩, ⟨some 3600, []⟩]
      ((1970 : ℤ), (1 : ℤ))) "A").length = 1 ∧
    (2 : ℕ) ≠ 1 := by
  refine ⟨by decide, by decide, by decide⟩

end TP25
